import Mathlib

/-!
Shallow embedding of the two pure cores of `src/app/page.tsx`:
the FEN board decoder `parseFEN` and the markdown-subset renderer
(`renderMarkdown` with the inline pass `formatInline`).

Cells are `Option Char`: `none` is the empty cell (the source pushes the
empty string), `some c` holds the literal character the source pushes.
-/

/-- Expansion of one character of a rank descriptor: a digit between
one and eight becomes that many empty cells, anything else a single
occupied cell holding the literal character. -/
def expandChar (c : Char) : List (Option Char) :=
  if '1' ≤ c ∧ c ≤ '8' then List.replicate (c.toNat - '0'.toNat) none
  else [some c]

/-- The squares accumulated by the character loop of `parseFEN`,
transcribing the push-based loop as a left fold. -/
def rankSquares (row : List Char) : List (Option Char) :=
  row.foldl (fun acc c => acc ++ expandChar c) []

/-- One rank of the board: the expanded squares, padded with empty cells
while shorter than eight (the source's trailing while-loop). -/
def parseRank (row : List Char) : List (Option Char) :=
  rankSquares row ++ List.replicate (8 - (rankSquares row).length) none

/-- Characters before the first space, as in `fen.split(' ')[0]`. -/
def fenFieldL : List Char → List Char
  | [] => []
  | c :: cs => if c = ' ' then [] else c :: fenFieldL cs

/-- The piece-placement field of a FEN string. -/
def fenField (s : String) : String := ⟨fenFieldL s.data⟩

/-- Splitting on a separator character, with JavaScript `split`
semantics (empty pieces are kept). -/
def splitOnChar (sep : Char) : List Char → List (List Char)
  | [] => [[]]
  | c :: cs =>
      if c = sep then [] :: splitOnChar sep cs
      else
        match splitOnChar sep cs with
        | [] => [[c]]
        | h :: t => (c :: h) :: t

/-- `parseFEN` from the source: empty input gives the default 8 by 8
empty board, otherwise the field before the first space is split on '/'
and each descriptor decoded into a rank. -/
def parseFEN (fen : String) : List (List (Option Char)) :=
  if fen = "" then List.replicate 8 (List.replicate 8 none)
  else (splitOnChar '/' (fenFieldL fen.data)).map parseRank

/-- `parseFEN` lifted to an optional argument: a missing argument is
falsy in the source's guard, exactly like the empty string. -/
def parseFENOpt (fen : Option String) : List (List (Option Char)) :=
  parseFEN (fen.getD "")

/-- The starting-position FEN constant of the source. -/
def INITIAL_FEN : String := "rnbqkbnr/pppppppp/8/8/8/8/PPPPPPPP/RNBQKBNR w KQkq - 0 1"

example : parseFEN "" = List.replicate 8 (List.replicate 8 none) := by decide
example : (parseFEN "ppppppppp").map List.length = [9] := by decide
example : parseFEN " w" = [List.replicate 8 none] := by decide
example : (parseFEN INITIAL_FEN).length = 8 := by decide

/-! ## Markdown-subset renderer -/

/-- A block of the markdown-subset renderer: heading with level, list
item with an ordered flag, blank line, or paragraph. The text is kept
raw; the inline pass is a separate function. -/
inductive Block where
  | heading : Nat → List Char → Block
  | item : Bool → List Char → Block
  | blank : Block
  | para : List Char → Block
deriving DecidableEq

/-- An inline span: plain text or a bold run. -/
inductive Inline where
  | text : List Char → Inline
  | bold : List Char → Inline
deriving DecidableEq

/-- Boolean test that the first list is an initial segment of the second. -/
def startsWithL : List Char → List Char → Bool
  | [], _ => true
  | _ :: _, [] => false
  | p :: ps, c :: cs => p = c && startsWithL ps cs

/-- A decimal digit, the character class of the source's ordered-list
pattern. -/
def isDigitCh (c : Char) : Bool := '0' ≤ c && c ≤ '9'

/-- The whitespace class of JavaScript regular expressions and of
`String.prototype.trim`. -/
def jsWhitespace (c : Char) : Bool :=
  c = ' ' || c = '\t' || c = '\n' || c = '\r' || c = '\x0b' || c = '\x0c' ||
  c = '\xa0' || c = '\u1680' || ('\u2000' ≤ c && c ≤ '\u200a') ||
  c = '\u2028' || c = '\u2029' || c = '\u202f' || c = '\u205f' ||
  c = '\u3000' || c = '\ufeff'

/-- After the leading digit: consume the remaining digits, then require
a literal dot and one whitespace character, returning the rest of the
line. Together with `ordRest` this transcribes the source's test and
replace of the anchored digits-dot-whitespace pattern. -/
def ordRestAfter : List Char → Option (List Char)
  | [] => none
  | c :: rest =>
      if isDigitCh c then ordRestAfter rest
      else if c = '.' then
        match rest with
        | w :: r => if jsWhitespace w then some r else none
        | [] => none
      else none

/-- When the line matches one or more digits, a dot and a whitespace
character at the start, the line with that match removed; otherwise
`none`. -/
def ordRest : List Char → Option (List Char)
  | [] => none
  | c :: rest => if isDigitCh c then ordRestAfter rest else none

/-- True when trimming the line leaves nothing, i.e. every character is
whitespace (the source's falsy-trim test). -/
def blankTest (l : List Char) : Bool := l.all jsWhitespace

/-- Classification of one line, transcribing the if-chain of
`renderMarkdown` in source order. -/
def lineBlock (l : List Char) : Block :=
  if startsWithL ['#', '#', '#', ' '] l then .heading 3 (l.drop 4)
  else if startsWithL ['#', '#', ' '] l then .heading 2 (l.drop 3)
  else if startsWithL ['#', ' '] l then .heading 1 (l.drop 2)
  else if startsWithL ['-', ' '] l || startsWithL ['*', ' '] l then .item false (l.drop 2)
  else
    match ordRest l with
    | some rest => .item true rest
    | none => if blankTest l then .blank else .para l

/-- `renderMarkdown` from the source, at the block level: falsy input
renders nothing, otherwise the text is split on newlines and each line
classified independently. -/
def renderMarkdown (text : String) : List Block :=
  if text = "" then []
  else (splitOnChar '\n' text.data).map lineBlock

example : renderMarkdown "# Title" = [Block.heading 1 "Title".data] := by decide
example : renderMarkdown "\n\n" = [Block.blank, Block.blank, Block.blank] := by decide
example : renderMarkdown "1. first\n2. second" =
    [Block.item true "first".data, Block.item true "second".data] := by decide
example : renderMarkdown "1.\tx" = [Block.item true ['x']] := by decide
example : renderMarkdown "12. ab" = [Block.item true "ab".data] := by decide
example : renderMarkdown "1.x" = [Block.para "1.x".data] := by decide
example : renderMarkdown "  " = [Block.blank] := by decide
example : renderMarkdown "#### x" = [Block.para "#### x".data] := by decide

/-! ## Inline pass: the double-asterisk split of `formatInline` -/

/-- Lazy search for the closing double asterisk: the shortest run of
characters (none of them a newline, which the regular expression's dot
cannot match) followed by two asterisks, returning that run and the
remainder after the two asterisks. -/
def findCloseNN : List Char → Option (List Char × List Char)
  | c1 :: c2 :: rest =>
      if c1 = '*' ∧ c2 = '*' then some ([], rest)
      else if c1 = '\n' then none
      else (findCloseNN (c2 :: rest)).map fun x => (c1 :: x.1, x.2)
  | _ => none

/-- Leftmost match of the delimited pattern: the plain run before an
opening double asterisk that has a closing double asterisk, the
captured run between them, and the remainder after the match. -/
def findPair : List Char → Option (List Char × List Char × List Char)
  | c1 :: c2 :: rest =>
      match (if c1 = '*' ∧ c2 = '*' then findCloseNN rest else none) with
      | some (content, r2) => some ([], content, r2)
      | none => (findPair (c2 :: rest)).map fun x => (c1 :: x.1, x.2.1, x.2.2)
  | _ => none

/-- The repeated global split, fuelled by the input length: each match
contributes a plain piece and a captured bold piece, the final
remainder (markers without a partner included) is a plain piece. -/
def spansGo : Nat → List Char → List Inline
  | 0, l => [.text l]
  | fuel + 1, l =>
      match findPair l with
      | none => [.text l]
      | some (p, ct, r) => .text p :: .bold ct :: spansGo fuel r

/-- The inline spans of a piece of text. -/
def spansOf (l : List Char) : List Inline := spansGo (l.length + 1) l

/-- `formatInline` from the source: the split on the double-asterisk
pattern, odd pieces (the captures) rendered bold, even pieces plain. -/
def formatInline (text : String) : List Inline := spansOf text.data

/-- Concatenation of the spans back into text, a bold run reproducing
the two delimiters around it. -/
def joinSpans : List Inline → List Char
  | [] => []
  | .text s :: rest => s ++ joinSpans rest
  | .bold s :: rest => '*' :: '*' :: (s ++ '*' :: '*' :: joinSpans rest)

/-- The shape of a split result: a plain piece, then alternating bold
and plain pieces, ending with a plain piece. -/
def altShape : List Inline → Bool
  | [.text _] => true
  | .text _ :: .bold _ :: rest => altShape rest
  | _ => false

example : formatInline "plain **bold** text" =
    [Inline.text "plain ".data, Inline.bold "bold".data, Inline.text " text".data] := by decide
example : formatInline "a **b" = [Inline.text "a **b".data] := by decide
example : formatInline "***a***" =
    [Inline.text [], Inline.bold "*a".data, Inline.text ['*']] := by decide
example : formatInline "****" = [Inline.text [], Inline.bold [], Inline.text []] := by decide
example : formatInline "a **b** c **d" =
    [Inline.text "a ".data, Inline.bold ['b'], Inline.text " c **d".data] := by decide

/-! ## Claim-side classifiers, written from the specification's wording -/

/-- The ordered-list rule as the claim words it: one or more digits,
then a literal dot, then a space, then the content; on a match the
content after the stripped numeric head, dot and space. -/
def ordRestSpaceOnly (l : List Char) : Option (List Char) :=
  match l.dropWhile isDigitCh with
  | '.' :: ' ' :: r => if (l.takeWhile isDigitCh) = [] then none else some r
  | _ => none

/-- The ordered-list rule with the space widened to any whitespace
character (the amendment forced by the source's whitespace class). -/
def ordRestAmended (l : List Char) : Option (List Char) :=
  match l.dropWhile isDigitCh with
  | '.' :: w :: r =>
      if (l.takeWhile isDigitCh) ≠ [] ∧ jsWhitespace w then some r else none
  | _ => none

/-- A line that is empty or consists only of whitespace, as the claim
words rule six. -/
def blankClaim (l : List Char) : Bool := l.isEmpty || l.all jsWhitespace

/-- The seven-rule classification exactly as the claim states it, with
rule five demanding a literal space after the dot. -/
def lineBlockClaim (l : List Char) : Block :=
  if startsWithL ['#', '#', '#', ' '] l then .heading 3 (l.drop 4)
  else if startsWithL ['#', '#', ' '] l then .heading 2 (l.drop 3)
  else if startsWithL ['#', ' '] l then .heading 1 (l.drop 2)
  else if startsWithL ['-', ' '] l || startsWithL ['*', ' '] l then .item false (l.drop 2)
  else
    match ordRestSpaceOnly l with
    | some rest => .item true rest
    | none => if blankClaim l then .blank else .para l

/-- The seven-rule classification with rule five amended to accept any
whitespace character after the dot. -/
def lineBlockAmended (l : List Char) : Block :=
  if startsWithL ['#', '#', '#', ' '] l then .heading 3 (l.drop 4)
  else if startsWithL ['#', '#', ' '] l then .heading 2 (l.drop 3)
  else if startsWithL ['#', ' '] l then .heading 1 (l.drop 2)
  else if startsWithL ['-', ' '] l || startsWithL ['*', ' '] l then .item false (l.drop 2)
  else
    match ordRestAmended l with
    | some rest => .item true rest
    | none => if blankClaim l then .blank else .para l

/-- The expanded cell count of a rank descriptor: a digit between one
and eight contributes its value, every other character one cell. -/
def cellCount (row : List Char) : Nat :=
  (row.map fun c => if '1' ≤ c ∧ c ≤ '8' then c.toNat - '0'.toNat else 1).sum

example : cellCount "ppppppppp".data = 9 := by decide
example : cellCount "8".data = 8 := by decide
example : lineBlockClaim "1.\tx".data = Block.para "1.\tx".data := by decide
example : lineBlockAmended "1.\tx".data = Block.item true ['x'] := by decide

/-! ## Helper lemmas -/

theorem rankSquares_acc (row : List Char) : ∀ acc : List (Option Char),
    row.foldl (fun a c => a ++ expandChar c) acc = acc ++ (row.map expandChar).flatten := by
  induction row with
  | nil => intro acc; simp
  | cons c cs ih => intro acc; simp [List.foldl, ih, List.append_assoc]

theorem rankSquares_flatten (row : List Char) :
    rankSquares row = (row.map expandChar).flatten := by
  simpa [rankSquares] using rankSquares_acc row []

theorem expandChar_length (c : Char) :
    (expandChar c).length = if '1' ≤ c ∧ c ≤ '8' then c.toNat - '0'.toNat else 1 := by
  unfold expandChar
  split <;> simp

theorem rankSquares_length (row : List Char) :
    (rankSquares row).length = cellCount row := by
  rw [rankSquares_flatten, List.length_flatten, cellCount]
  simp only [List.map_map]
  congr 1
  apply List.map_congr_left
  intro c _
  simp [expandChar_length]

theorem parseRank_length (row : List Char) :
    (parseRank row).length = max 8 (cellCount row) := by
  simp [parseRank, rankSquares_length]
  omega

theorem fenFieldL_idem (l : List Char) : fenFieldL (fenFieldL l) = fenFieldL l := by
  induction l with
  | nil => rfl
  | cons c cs ih =>
      by_cases h : c = ' '
      · simp [fenFieldL, h]
      · simp [fenFieldL, h, ih]

theorem findCloseNN_recon : ∀ (l : List Char) (a b : List Char),
    findCloseNN l = some (a, b) → l = a ++ '*' :: '*' :: b := by
  intro l
  induction l using findCloseNN.induct with
  | case1 c1 c2 rest h =>
      intro a b hab
      simp [findCloseNN, h] at hab
      obtain ⟨h1, h2⟩ := h
      subst h1; subst h2
      simp [hab.1.symm, hab.2.symm]
  | case2 c2 rest h =>
      intro a b hab
      simp [findCloseNN, h] at hab
  | case3 c1 c2 rest h h2 ih =>
      intro a b hab
      simp [findCloseNN, h, h2] at hab
      obtain ⟨x, hx, ha⟩ := hab
      subst ha
      simpa using ih x b hx
  | case4 t h =>
      intro a b hab
      rcases t with _ | ⟨c1, _ | ⟨c2, rest⟩⟩
      · simp [findCloseNN] at hab
      · simp [findCloseNN] at hab
      · exact (h c1 c2 rest rfl).elim

theorem findPair_recon : ∀ (l p ct r : List Char),
    findPair l = some (p, ct, r) → l = p ++ '*' :: '*' :: (ct ++ '*' :: '*' :: r) := by
  intro l
  induction l using findPair.induct with
  | case1 c1 c2 rest content r2 hsc =>
      intro p ct r hp
      simp [findPair, hsc] at hp
      split at hsc
      next hstar =>
        obtain ⟨h1, h2⟩ := hstar
        subst h1; subst h2
        have := findCloseNN_recon rest content r2 hsc
        obtain ⟨hp1, hp2, hp3⟩ := hp
        subst hp1; subst hp2; subst hp3
        simp [this]
      next => exact absurd hsc (by simp)
  | case2 c1 c2 rest hsc ih =>
      intro p ct r hp
      simp [findPair, hsc] at hp
      obtain ⟨x, hx, hxp⟩ := hp
      subst hxp
      simpa using ih x ct r hx
  | case3 t h =>
      intro p ct r hp
      rcases t with _ | ⟨c1, _ | ⟨c2, rest⟩⟩
      · simp [findPair] at hp
      · simp [findPair] at hp
      · exact (h c1 c2 rest rfl).elim

theorem findPair_rest_lt (l p ct r : List Char) (h : findPair l = some (p, ct, r)) :
    r.length < l.length := by
  have hr := findPair_recon l p ct r h
  subst hr
  simp
  omega

theorem spansGo_join : ∀ (fuel : Nat) (l : List Char), l.length < fuel →
    joinSpans (spansGo fuel l) = l := by
  intro fuel
  induction fuel with
  | zero => intro l h; omega
  | succ n ih =>
      intro l h
      cases hfp : findPair l with
      | none => simp [spansGo, hfp, joinSpans]
      | some x =>
          obtain ⟨p, ct, r⟩ := x
          have hlt := findPair_rest_lt l p ct r hfp
          have hrec := findPair_recon l p ct r hfp
          simp only [spansGo, hfp, joinSpans, ih r (by omega)]
          simp [hrec]

theorem spansGo_alt : ∀ (fuel : Nat) (l : List Char),
    altShape (spansGo fuel l) = true := by
  intro fuel
  induction fuel with
  | zero => intro l; rfl
  | succ n ih =>
      intro l
      cases hfp : findPair l with
      | none => simp [spansGo, hfp, altShape]
      | some x =>
          obtain ⟨p, ct, r⟩ := x
          simp [spansGo, hfp, altShape, ih r]

theorem ordRestAfter_eq : ∀ rest : List Char, ordRestAfter rest =
    (match rest.dropWhile isDigitCh with
     | '.' :: w :: r => if jsWhitespace w then some r else none
     | _ => none) := by
  intro rest
  induction rest with
  | nil => rfl
  | cons c cs ih =>
      by_cases hd : isDigitCh c
      · simpa [ordRestAfter, hd, List.dropWhile_cons, hd] using ih
      · by_cases hdot : c = '.'
        · subst hdot
          cases cs <;> simp [ordRestAfter, hd, List.dropWhile_cons]
        · simp only [ordRestAfter, hd, List.dropWhile_cons, if_neg, Bool.false_eq_true,
            not_false_eq_true, if_neg hdot]
          split
          next heq => rw [List.cons.injEq] at heq; exact absurd heq.1 hdot
          next => rfl

theorem ordRest_eq_amended : ∀ l : List Char, ordRest l = ordRestAmended l := by
  intro l
  cases l with
  | nil => rfl
  | cons c cs =>
      by_cases hd : isDigitCh c
      · rw [ordRest, if_pos hd, ordRestAfter_eq, ordRestAmended]
        simp only [List.takeWhile_cons, List.dropWhile_cons, hd, if_pos]
        split
        next w r heq => simp [heq]
        next => rfl
      · rw [ordRest, if_neg hd, ordRestAmended]
        simp only [List.takeWhile_cons, List.dropWhile_cons, hd, if_neg,
          Bool.false_eq_true, not_false_eq_true]
        split
        next w r heq => simp [heq]
        next => rfl

theorem blankTest_eq_claim : ∀ l : List Char, blankTest l = blankClaim l := by
  intro l
  cases l <;> simp [blankTest, blankClaim]

theorem lineBlock_eq_amended : ∀ l : List Char, lineBlock l = lineBlockAmended l := by
  intro l
  rw [lineBlock, lineBlockAmended, ordRest_eq_amended, blankTest_eq_claim]

/-! ## Claim theorems -/

/-- Claim C1, counterexample: on the malformed descriptor of nine pawn
characters the single decoded rank has nine cells, so it is false that
every rank of every decoded board has exactly eight cells. -/
theorem parseFEN_exact_eight_refuted :
    ¬ ∀ r ∈ parseFEN "ppppppppp", r.length = 8 := by decide

/-- Claim C1 as amended: for every non-empty input the board has one
rank per slash-separated descriptor of the piece-placement field, and
every rank has at least eight cells (short descriptors are padded;
over-long ones are kept in full). -/
theorem parseFEN_rank_count_min_width : ∀ s : String, s ≠ "" →
    (parseFEN s).length = (splitOnChar '/' (fenFieldL s.data)).length ∧
    ∀ r ∈ parseFEN s, 8 ≤ r.length := by
  intro s h
  constructor
  · simp [parseFEN, if_neg h]
  · intro r hr
    simp only [parseFEN, if_neg h, List.mem_map] at hr
    obtain ⟨d, hd, hrd⟩ := hr
    rw [← hrd, parseRank_length]
    omega

/-- Witness for the amended C1 at the one-descriptor input "k". -/
theorem parseFEN_rank_count_min_width_inst :
    (parseFEN "k").length = (splitOnChar '/' (fenFieldL "k".data)).length ∧
    ∀ r ∈ parseFEN "k", 8 ≤ r.length :=
  parseFEN_rank_count_min_width "k" (by decide)

/-- Claim C2: scanning a rank descriptor left to right, every digit
between one and eight expands to that many empty cells, every other
character becomes one occupied cell holding that literal character, and
the accumulated squares are the left-to-right concatenation of the
per-character expansions. -/
theorem expandChar_scan_spec : ∀ (row : List Char) (c : Char),
    (('1' ≤ c ∧ c ≤ '8') → expandChar c = List.replicate (c.toNat - '0'.toNat) none) ∧
    (¬ ('1' ≤ c ∧ c ≤ '8') → expandChar c = [some c]) ∧
    rankSquares row = (row.map expandChar).flatten := by
  intro row c
  refine ⟨fun h => ?_, fun h => ?_, rankSquares_flatten row⟩
  · simp [expandChar, h]
  · simp [expandChar, h]

/-- Witness for C2 at the digit three and the letter k. -/
theorem expandChar_scan_spec_inst :
    expandChar '3' = List.replicate 3 none ∧ expandChar 'k' = [some 'k'] :=
  ⟨(expandChar_scan_spec [] '3').1 (by decide), (expandChar_scan_spec [] 'k').2.1 (by decide)⟩

/-- Claim C3, counterexample: the source's ordered-list pattern accepts
any whitespace character after the dot, so on a line with a tab after
the dot the code classifies an ordered list item while the claim's
rules, which demand a literal space, classify a paragraph. -/
theorem lineBlock_space_only_refuted :
    renderMarkdown "1.\tx" = [Block.item true ['x']] ∧
    lineBlockClaim ("1.\tx".data) = Block.para ("1.\tx".data) ∧
    Block.item true ['x'] ≠ Block.para ("1.\tx".data) :=
  ⟨by decide, by decide, by decide⟩

/-- Claim C3 as amended: every line of a non-empty input is classified
by the first matching rule in priority order, with rule five reading
one or more digits, a literal dot, then one whitespace character
(not only a space), the matched head being stripped. -/
theorem renderMarkdown_classification : ∀ t : String, t ≠ "" →
    renderMarkdown t = (splitOnChar '\n' t.data).map lineBlockAmended := by
  intro t h
  simp only [renderMarkdown, if_neg h]
  rw [funext lineBlock_eq_amended]

/-- Witness for the amended C3 on a five-line document exercising every
rule. -/
theorem renderMarkdown_classification_inst :
    renderMarkdown "# T\n- a\n1. b\n\nx" =
      (splitOnChar '\n' ("# T\n- a\n1. b\n\nx".data)).map lineBlockAmended :=
  renderMarkdown_classification "# T\n- a\n1. b\n\nx" (by decide)

/-- Claim C4: the inline pass decomposes the pinned example into plain,
bold, plain; every split alternates plain and bold pieces starting and
ending plain; concatenating the pieces with the two delimiters restored
around each bold piece reproduces the input exactly, so every piece
between a delimiter pair is bold, every other piece plain, in order,
and markers without a partner stay literally in the plain text; and a
text with no delimited pair is one plain piece. -/
theorem formatInline_split_spec :
    formatInline "plain **bold** text" =
      [Inline.text "plain ".data, Inline.bold "bold".data, Inline.text " text".data] ∧
    (∀ l : List Char, joinSpans (spansOf l) = l) ∧
    (∀ l : List Char, altShape (spansOf l) = true) ∧
    (∀ l : List Char, findPair l = none → spansOf l = [Inline.text l]) := by
  refine ⟨by decide, fun l => spansGo_join _ l (by omega), fun l => spansGo_alt _ l, ?_⟩
  intro l h
  simp [spansOf, spansGo, h]

/-- Witness for C4's unmatched-marker conjunct on a text with a single
unpaired delimiter. -/
theorem formatInline_split_spec_inst :
    spansOf ("ab**c".data) = [Inline.text ("ab**c".data)] :=
  formatInline_split_spec.2.2.2 ("ab**c".data) (by decide)

/-- Claim C5, counterexample: on input beginning with a space the
piece-placement field is empty, the decoder then decodes the single
empty descriptor into one rank, while decoding the empty field itself
returns the eight-rank fallback, so the two boards differ. -/
theorem parseFEN_later_fields_refuted :
    fenField " w" = "" ∧ parseFEN " w" ≠ parseFEN (fenField " w") :=
  ⟨by decide, by decide⟩

/-- Claim C5 as amended: whenever the piece-placement field before the
first space is non-empty, decoding the whole string equals decoding
that field alone, so the later FEN fields never affect the board. -/
theorem parseFEN_ignores_later_fields : ∀ s : String, fenField s ≠ "" →
    parseFEN s = parseFEN (fenField s) := by
  intro s h
  have hs : s ≠ "" := by
    intro he
    apply h
    subst he
    apply String.ext
    rfl
  simp only [parseFEN, if_neg hs, if_neg h]
  have hdat : (fenField s).data = fenFieldL s.data := rfl
  rw [hdat, fenFieldL_idem]

/-- Witness for the amended C5 on a full FEN with all six fields. -/
theorem parseFEN_ignores_later_fields_inst :
    parseFEN "8/8 w KQkq - 0 1" = parseFEN (fenField "8/8 w KQkq - 0 1") :=
  parseFEN_ignores_later_fields "8/8 w KQkq - 0 1" (by decide)

/-- Claim C6: the empty string and the absent argument both produce the
default board of eight ranks of eight empty cells. -/
theorem parseFEN_empty_default :
    parseFEN "" = List.replicate 8 (List.replicate 8 none) ∧
    parseFENOpt none = List.replicate 8 (List.replicate 8 none) :=
  ⟨by decide, by decide⟩

/-- Claim C7, counterexample: the starting position has four fully
empty ranks, not two, between the pawn ranks. -/
theorem parseFEN_initial_two_empty_refuted :
    ¬ ((parseFEN INITIAL_FEN).filter (fun r => r.all Option.isNone)).length = 2 := by
  decide

/-- Claim C7 as amended: the starting-position FEN decodes to the black
piece rank, the black pawn rank, four fully empty ranks, the white pawn
rank and the white piece rank, in that order. -/
theorem parseFEN_initial_position :
    parseFEN INITIAL_FEN =
      [[some 'r', some 'n', some 'b', some 'q', some 'k', some 'b', some 'n', some 'r'],
       List.replicate 8 (some 'p'),
       List.replicate 8 none, List.replicate 8 none,
       List.replicate 8 none, List.replicate 8 none,
       List.replicate 8 (some 'P'),
       [some 'R', some 'N', some 'B', some 'Q', some 'K', some 'B', some 'N', some 'R']] := by
  decide

/-- Claim C8: both cores are total functions of their input string;
every input, malformed or empty, yields a value and no error is ever
signalled (the embedding has no error outcome to return). -/
theorem core_functions_total : ∀ s : String,
    (∃ b, parseFEN s = b) ∧ (∃ bs, renderMarkdown s = bs) ∧ (∃ sp, formatInline s = sp) :=
  fun _ => ⟨⟨_, rfl⟩, ⟨_, rfl⟩, ⟨_, rfl⟩⟩

/-- Claim C9, counterexample: the two-newline input does not yield two
blank blocks. -/
theorem renderMarkdown_double_newline_refuted :
    renderMarkdown "\n\n" ≠ [Block.blank, Block.blank] := by decide

/-- Claim C9 as amended: splitting the two-newline input on newlines
yields three empty lines, so the renderer yields exactly three blank
blocks. -/
theorem renderMarkdown_double_newline :
    renderMarkdown "\n\n" = [Block.blank, Block.blank, Block.blank] := by decide

/-- Claim C10: a decoded rank's length is the maximum of eight and the
descriptor's expanded cell count, so an over-long descriptor is emitted
in full and yields a rank longer than eight cells. -/
theorem parseRank_length_max : ∀ row : List Char,
    (parseRank row).length = max 8 (cellCount row) ∧
    (8 < cellCount row → 8 < (parseRank row).length) := by
  intro row
  refine ⟨parseRank_length row, fun h => ?_⟩
  rw [parseRank_length]
  omega

/-- Witness for C10 on a nine-cell descriptor. -/
theorem parseRank_length_max_inst :
    (parseRank ("rnbqkbnrX".data)).length = max 8 (cellCount "rnbqkbnrX".data) ∧
    8 < (parseRank ("rnbqkbnrX".data)).length :=
  ⟨(parseRank_length_max _).1, (parseRank_length_max ("rnbqkbnrX".data)).2 (by decide)⟩
